import Mathlib

/-!
Verification development for the module-js repository (psc-44/module-js).

The TypeScript sources are shallowly embedded:
* DOM elements are natural-number identifiers; the document tree is a
  parent map together with a depth measure that certifies finiteness of
  every ancestor chain (JS recursion over `parentElement` terminates on a
  finite tree; the embedding makes that explicit by passing fuel derived
  from the depth).
* JS `Map` objects and plain records are embedded as association lists in
  insertion order (`aset` updates in place or appends, like `Map.set`).
* JS `Set` objects are embedded as duplicate-free lists in insertion order.
* Event listener functions and emitter callbacks are opaque identifiers
  (`Nat`), matching JS function identity.
* Strings are Lean strings; the regex replace in the naming resolvers is
  embedded character by character with the match offset.
-/

set_option maxRecDepth 4000

/-- First-match association list lookup, mirroring `Map.get` / property read. -/
def alookup {α β : Type} [DecidableEq α] : List (α × β) → α → Option β
  | [], _ => none
  | (k, v) :: rest, key => if key = k then some v else alookup rest key

/-- Association list update, mirroring `Map.set` / property write: updates the
first entry with the key in place or appends a fresh entry. -/
def aset {α β : Type} [DecidableEq α] : List (α × β) → α → β → List (α × β)
  | [], key, v => [(key, v)]
  | (k, w) :: rest, key, v =>
    if key = k then (key, v) :: rest else (k, w) :: aset rest key v

/-- Association list removal of the first entry with the key, mirroring
`Map.delete` / `delete obj[key]`. -/
def adelete {α β : Type} [DecidableEq α] : List (α × β) → α → List (α × β)
  | [], _ => []
  | (k, w) :: rest, key =>
    if key = k then rest else (k, w) :: adelete rest key

theorem alookup_aset_self {α β : Type} [DecidableEq α]
    (l : List (α × β)) (k : α) (v : β) : alookup (aset l k v) k = some v := by
  induction l with
  | nil => simp [aset, alookup]
  | cons p rest ih =>
    obtain ⟨k', v'⟩ := p
    by_cases h : k = k' <;> simp [aset, alookup, h, ih]

theorem alookup_aset_ne {α β : Type} [DecidableEq α]
    (l : List (α × β)) (k k' : α) (v : β) (h : k' ≠ k) :
    alookup (aset l k v) k' = alookup l k' := by
  induction l with
  | nil => simp [aset, alookup, h]
  | cons p rest ih =>
    obtain ⟨k0, v0⟩ := p
    by_cases hk : k = k0
    · subst hk
      simp [aset, alookup, h]
    · by_cases hk' : k' = k0 <;> simp [aset, alookup, hk, hk', ih]

theorem aset_aset {α β : Type} [DecidableEq α]
    (l : List (α × β)) (k : α) (v w : β) :
    aset (aset l k v) k w = aset l k w := by
  induction l with
  | nil => simp [aset]
  | cons p rest ih =>
    obtain ⟨k0, v0⟩ := p
    by_cases hk : k = k0 <;> simp [aset, hk, ih]

theorem alookup_mem {α β : Type} [DecidableEq α]
    (l : List (α × β)) (k : α) (v : β) (h : alookup l k = some v) : (k, v) ∈ l := by
  induction l with
  | nil => simp [alookup] at h
  | cons p rest ih =>
    obtain ⟨k0, v0⟩ := p
    by_cases hk : k = k0
    · subst hk
      simp [alookup] at h
      simp [h]
    · simp [alookup, hk] at h
      exact List.mem_cons_of_mem _ (ih h)

theorem alookup_adelete_ne {α β : Type} [DecidableEq α]
    (l : List (α × β)) (k k' : α) (h : k' ≠ k) :
    alookup (adelete l k) k' = alookup l k' := by
  induction l with
  | nil => simp [adelete]
  | cons p rest ih =>
    obtain ⟨k0, v0⟩ := p
    by_cases hk : k = k0
    · subst hk
      simp [adelete, alookup, h]
    · by_cases hk' : k' = k0 <;> simp [adelete, alookup, hk, hk', ih]

theorem alookup_eq_none_of_not_mem_keys {α β : Type} [DecidableEq α]
    (l : List (α × β)) (k : α) (h : k ∉ l.map (fun p => p.1)) : alookup l k = none := by
  induction l with
  | nil => rfl
  | cons p rest ih =>
    simp only [List.map_cons, List.mem_cons, not_or] at h
    simp [alookup, h.1, ih h.2]

theorem alookup_adelete_self_of_nodup {α β : Type} [DecidableEq α]
    (l : List (α × β)) (k : α) (h : (l.map (fun p => p.1)).Nodup) :
    alookup (adelete l k) k = none := by
  induction l with
  | nil => rfl
  | cons p rest ih =>
    obtain ⟨k0, v0⟩ := p
    simp only [List.map_cons, List.nodup_cons] at h
    by_cases hk : k = k0
    · subst hk
      have heq : adelete ((k, v0) :: rest) k = rest := by simp [adelete]
      rw [heq]
      exact alookup_eq_none_of_not_mem_keys rest k h.1
    · simp [adelete, alookup, hk, ih h.2]

theorem mem_keys_adelete {α β : Type} [DecidableEq α]
    (l : List (α × β)) (k x : α) (h : x ∈ (adelete l k).map (fun p => p.1)) :
    x ∈ l.map (fun p => p.1) := by
  induction l with
  | nil => simp [adelete] at h
  | cons p rest ih =>
    obtain ⟨k0, v0⟩ := p
    by_cases hk : k = k0
    · subst hk
      have heq : adelete ((k, v0) :: rest) k = rest := by simp [adelete]
      rw [heq] at h
      rw [List.map_cons]
      exact List.mem_cons_of_mem _ h
    · have heq : adelete ((k0, v0) :: rest) k = (k0, v0) :: adelete rest k := by
        simp [adelete, hk]
      rw [heq, List.map_cons] at h
      rw [List.map_cons]
      rcases List.mem_cons.1 h with h1 | h1
      · exact List.mem_cons.2 (Or.inl h1)
      · exact List.mem_cons.2 (Or.inr (ih h1))

theorem adelete_keys_nodup {α β : Type} [DecidableEq α]
    (l : List (α × β)) (k : α) (h : (l.map (fun p => p.1)).Nodup) :
    ((adelete l k).map (fun p => p.1)).Nodup := by
  induction l with
  | nil => simp [adelete]
  | cons p rest ih =>
    obtain ⟨k0, v0⟩ := p
    simp only [List.map_cons, List.nodup_cons] at h
    by_cases hk : k = k0
    · subst hk
      have heq : adelete ((k, v0) :: rest) k = rest := by simp [adelete]
      rw [heq]
      exact h.2
    · have heq : adelete ((k0, v0) :: rest) k = (k0, v0) :: adelete rest k := by
        simp [adelete, hk]
      rw [heq, List.map_cons]
      exact List.nodup_cons.2 ⟨fun hmem => h.1 (mem_keys_adelete rest k k0 hmem), ih h.2⟩

theorem mem_keys_aset {α β : Type} [DecidableEq α]
    (l : List (α × β)) (k x : α) (v : β) (h : x ∈ (aset l k v).map (fun p => p.1)) :
    x ∈ l.map (fun p => p.1) ∨ x = k := by
  induction l with
  | nil =>
    have heq : aset ([] : List (α × β)) k v = [(k, v)] := rfl
    rw [heq] at h
    simp only [List.map_cons, List.map_nil, List.mem_singleton] at h
    exact Or.inr h
  | cons p rest ih =>
    obtain ⟨k0, v0⟩ := p
    by_cases hk : k = k0
    · subst hk
      have heq : aset ((k, v0) :: rest) k v = (k, v) :: rest := by simp [aset]
      rw [heq, List.map_cons] at h
      rw [List.map_cons]
      rcases List.mem_cons.1 h with h1 | h1
      · exact Or.inr h1
      · exact Or.inl (List.mem_cons.2 (Or.inr h1))
    · have heq : aset ((k0, v0) :: rest) k v = (k0, v0) :: aset rest k v := by
        simp [aset, hk]
      rw [heq, List.map_cons] at h
      rw [List.map_cons]
      rcases List.mem_cons.1 h with h1 | h1
      · exact Or.inl (List.mem_cons.2 (Or.inl h1))
      · rcases ih h1 with h2 | h2
        · exact Or.inl (List.mem_cons.2 (Or.inr h2))
        · exact Or.inr h2

theorem aset_keys_nodup {α β : Type} [DecidableEq α]
    (l : List (α × β)) (k : α) (v : β) (h : (l.map (fun p => p.1)).Nodup) :
    ((aset l k v).map (fun p => p.1)).Nodup := by
  induction l with
  | nil => simp [aset]
  | cons p rest ih =>
    obtain ⟨k0, v0⟩ := p
    simp only [List.map_cons, List.nodup_cons] at h
    by_cases hk : k = k0
    · subst hk
      have heq : aset ((k, v0) :: rest) k v = (k, v) :: rest := by simp [aset]
      rw [heq, List.map_cons]
      exact List.nodup_cons.2 h
    · have heq : aset ((k0, v0) :: rest) k v = (k0, v0) :: aset rest k v := by
        simp [aset, hk]
      rw [heq, List.map_cons]
      refine List.nodup_cons.2 ⟨fun hmem => ?_, ih h.2⟩
      rcases mem_keys_aset rest k k0 v hmem with hkm | hkm
      · exact h.1 hkm
      · exact hk hkm.symm

theorem alookup_of_mem_nodup {α β : Type} [DecidableEq α]
    (l : List (α × β)) (p : α × β) (h : (l.map (fun q => q.1)).Nodup) (hmem : p ∈ l) :
    alookup l p.1 = some p.2 := by
  induction l with
  | nil => simp at hmem
  | cons q rest ih =>
    obtain ⟨k0, v0⟩ := q
    simp only [List.map_cons, List.nodup_cons] at h
    rcases List.mem_cons.1 hmem with hq | hq
    · subst hq
      simp [alookup]
    · have hne : p.1 ≠ k0 := by
        intro he
        exact h.1 (he ▸ List.mem_map_of_mem (fun q => q.1) hq)
      simp [alookup, hne, ih h.2 hq]

/-! ## Naming resolver (src/utils.ts `pascalToKebab`, dist utils `pascalToSnake`)

The source is `pascalString.replace(/[A-Z]/g, (match, offset) =>
(offset ? SEP : '') + match.toLowerCase())` with `SEP = '-'` in
`pascalToKebab` and `SEP = '_'` in `pascalToSnake`.  The regex class
`[A-Z]` matches exactly the ASCII uppercase letters, and `toLowerCase`
on such a letter adds 32 to its code point. -/

/-- Membership in the regex character class `[A-Z]`. -/
def isUpperAZ (c : Char) : Bool := 65 ≤ c.toNat && c.toNat ≤ 90

/-- JS `String.prototype.toLowerCase` restricted to the characters this
program feeds it: ASCII uppercase letters map down by 32, everything else
is untouched. -/
def toLowerAZ (c : Char) : Char :=
  if isUpperAZ c then Char.ofNat (c.toNat + 32) else c

/-- Character-by-character embedding of the global regex replace: the
first argument is the match offset (JS `offset ? sep : ''` inserts the
separator at every match except offset 0). -/
def replaceUpperAux (sep : Char) : Nat → List Char → List Char
  | _, [] => []
  | i, c :: cs =>
    (if isUpperAZ c then (if i != 0 then [sep] else []) ++ [toLowerAZ c] else [c])
      ++ replaceUpperAux sep (i + 1) cs

/-- src/utils.ts (part_006) `pascalToKebab`: separator is a dash. -/
def pascalToKebab (s : String) : String :=
  String.mk (replaceUpperAux '-' 0 s.data)

/-- dist utils `pascalToSnake` (imported by src/App.ts): separator is an
underscore. -/
def pascalToSnake (s : String) : String :=
  String.mk (replaceUpperAux '_' 0 s.data)

/-- Segmentation following the specification text: every uppercase letter
starts a new segment except a leading one; the accumulator holds the
current segment reversed. -/
def segmentsAux : List Char → List Char → List (List Char)
  | acc, [] => [acc.reverse]
  | acc, c :: cs =>
    if isUpperAZ c then acc.reverse :: segmentsAux [c] cs
    else segmentsAux (c :: acc) cs

/-- Resolver as the specification words it: split into segments at every
non-leading uppercase letter, lowercase the segments, join with the
separator. -/
def specSegmented (sep : Char) (s : String) : String :=
  match s.data with
  | [] => ""
  | c :: cs =>
    String.mk (List.intercalate [sep] ((segmentsAux [c] cs).map (fun seg => seg.map toLowerAZ)))

theorem segmentsAux_ne_nil (acc : List Char) (cs : List Char) :
    segmentsAux acc cs ≠ [] := by
  induction cs generalizing acc with
  | nil => simp [segmentsAux]
  | cons c cs ih =>
    by_cases h : isUpperAZ c <;> simp [segmentsAux, h, ih]

theorem replaceUpperAux_pos (sep : Char) (cs : List Char) (i j : Nat)
    (hi : i ≠ 0) (hj : j ≠ 0) :
    replaceUpperAux sep i cs = replaceUpperAux sep j cs := by
  induction cs generalizing i j with
  | nil => rfl
  | cons c cs ih =>
    simp only [replaceUpperAux]
    rw [ih (i + 1) (j + 1) (Nat.succ_ne_zero i) (Nat.succ_ne_zero j)]
    have hib : (i != 0) = true := by simpa using hi
    have hjb : (j != 0) = true := by simpa using hj
    rw [hib, hjb]

theorem intercalate_cons_cons {α : Type} (sep x y : List α) (ys : List (List α)) :
    sep.intercalate (x :: y :: ys) = x ++ sep ++ sep.intercalate (y :: ys) := by
  simp [List.intercalate, List.intersperse, List.append_assoc]

theorem segments_join (sep : Char) (cs : List Char) (acc : List Char) :
    List.intercalate [sep] ((segmentsAux acc cs).map (fun seg => seg.map toLowerAZ))
      = acc.reverse.map toLowerAZ ++ replaceUpperAux sep 1 cs := by
  induction cs generalizing acc with
  | nil => simp [segmentsAux, List.intercalate, replaceUpperAux]
  | cons c cs ih =>
    cases h : isUpperAZ c with
    | true =>
      simp only [segmentsAux, h, if_true, List.map_cons]
      obtain ⟨s0, rest, hrest⟩ : ∃ s0 rest, segmentsAux [c] cs = s0 :: rest := by
        cases hseg : segmentsAux [c] cs with
        | nil => exact absurd hseg (segmentsAux_ne_nil [c] cs)
        | cons s0 rest => exact ⟨s0, rest, rfl⟩
      rw [hrest, List.map_cons, intercalate_cons_cons, ← List.map_cons, ← hrest, ih [c]]
      simp only [replaceUpperAux, h, if_true]
      rw [replaceUpperAux_pos sep cs 2 1 (by omega) (by omega)]
      simp
    | false =>
      simp only [segmentsAux, h, Bool.false_eq_true, if_false]
      rw [ih (c :: acc)]
      have hc : toLowerAZ c = c := by simp [toLowerAZ, h]
      simp only [replaceUpperAux, h, Bool.false_eq_true, if_false, List.reverse_cons,
        List.map_append, List.map_cons, List.map_nil]
      simp [hc, replaceUpperAux_pos sep cs 1 2 (by omega) (by omega)]

theorem replaceUpper_eq_specSegmented (sep : Char) (s : String) :
    String.mk (replaceUpperAux sep 0 s.data) = specSegmented sep s := by
  obtain ⟨data⟩ := s
  match data with
  | [] => rfl
  | c :: cs =>
    simp only [specSegmented]
    rw [segments_join sep cs [c]]
    simp only [replaceUpperAux]
    by_cases h : isUpperAZ c
    · simp [h, replaceUpperAux_pos sep cs 1 1 one_ne_zero one_ne_zero]
    · simp [h, toLowerAZ]

/-! ## Scoped selector resolution (src/Module.ts `getSelectorQuery`, part_008 variant)

`selector.indexOf(c)` returns the first index of `c` or `-1`; the source
collects the indices of `.`, `#` and `[`, filters out the `-1`s, and
returns the raw selector whenever any marker was found, otherwise an
attribute selector built from the component namespace. -/

/-- JS `String.prototype.indexOf` restricted to single-character needles. -/
def idxAux : List Char → Char → Nat → Int
  | [], _, _ => -1
  | x :: xs, c, i => if x = c then (i : Int) else idxAux xs c (i + 1)

def indexOfChar (s : String) (c : Char) : Int := idxAux s.data c 0

theorem idxAux_eq_neg_one_iff (l : List Char) (c : Char) (i : Nat) :
    idxAux l c i = -1 ↔ c ∉ l := by
  induction l generalizing i with
  | nil => simp [idxAux]
  | cons x xs ih =>
    by_cases h : x = c
    · subst h
      simp only [idxAux, if_pos rfl]
      constructor
      · intro hcon
        exact absurd hcon (by simp)
      · intro hmem
        exact absurd (List.mem_cons_self x xs) hmem
    · simp only [idxAux, if_neg h, ih (i + 1), List.mem_cons]
      constructor
      · intro hn hor
        rcases hor with hx | hxs
        · exact h hx.symm
        · exact hn hxs
      · intro hn hmem
        exact hn (Or.inr hmem)

namespace MJS

/-- src/Module.ts `Module.getSelectorQuery` (same text in part_007):
selectors containing a class, id or attribute marker pass through
unchanged, anything else becomes `[data-<name>="<selector>"]` where
`data-<name>` is `getAttributeName()`. -/
def getSelectorQuery (name selector : String) : String :=
  let classIndex := indexOfChar selector '.'
  let idIndex := indexOfChar selector '#'
  let attrIndex := indexOfChar selector '['
  let indexes := [classIndex, idIndex, attrIndex].filter (fun i => i != -1)
  if indexes.length != 0 then selector
  else "[data-" ++ name ++ "=\"" ++ selector ++ "\"]"

end MJS

namespace Mod8

/-- part_008 `Module.getSelectorQuery`: identical marker test, but the
fallback is the suffix convention `[data-<name>-<selector>]`. -/
def getSelectorQuery (name selector : String) : String :=
  let classIndex := indexOfChar selector '.'
  let idIndex := indexOfChar selector '#'
  let attrIndex := indexOfChar selector '['
  let indexes := [classIndex, idIndex, attrIndex].filter (fun i => i != -1)
  if indexes.length != 0 then selector
  else "[data-" ++ name ++ "-" ++ selector ++ "]"

end Mod8

/-- Test from the claim text: does the raw selector contain a `.`, `#`
or `[` anywhere? -/
def hasMarker (s : String) : Bool :=
  s.data.contains '.' || s.data.contains '#' || s.data.contains '['

theorem marker_filter_nil (s : String) (h : hasMarker s = false) :
    [indexOfChar s '.', indexOfChar s '#', indexOfChar s '['].filter (fun i => i != -1) = [] := by
  simp only [hasMarker, Bool.or_eq_false_iff] at h
  obtain ⟨⟨h1, h2⟩, h3⟩ := h
  replace h1 : '.' ∉ s.data := by simpa using h1
  replace h2 : '#' ∉ s.data := by simpa using h2
  replace h3 : '[' ∉ s.data := by simpa using h3
  have e1 : indexOfChar s '.' = -1 := (idxAux_eq_neg_one_iff s.data '.' 0).2 h1
  have e2 : indexOfChar s '#' = -1 := (idxAux_eq_neg_one_iff s.data '#' 0).2 h2
  have e3 : indexOfChar s '[' = -1 := (idxAux_eq_neg_one_iff s.data '[' 0).2 h3
  simp [e1, e2, e3]

theorem marker_filter_ne_nil (s : String) (h : hasMarker s = true) :
    ([indexOfChar s '.', indexOfChar s '#', indexOfChar s '['].filter (fun i => i != -1)).length ≠ 0 := by
  simp only [hasMarker, Bool.or_eq_true] at h
  have key : ∃ c ∈ ['.', '#', '['], indexOfChar s c ≠ -1 := by
    rcases h with (h1 | h2) | h3
    · exact ⟨'.', by simp,
        fun hc => ((idxAux_eq_neg_one_iff s.data '.' 0).1 hc) (by simpa using h1)⟩
    · exact ⟨'#', by simp,
        fun hc => ((idxAux_eq_neg_one_iff s.data '#' 0).1 hc) (by simpa using h2)⟩
    · exact ⟨'[', by simp,
        fun hc => ((idxAux_eq_neg_one_iff s.data '[' 0).1 hc) (by simpa using h3)⟩
  obtain ⟨c, hc, hne⟩ := key
  have hmem : indexOfChar s c ∈
      [indexOfChar s '.', indexOfChar s '#', indexOfChar s '['].filter (fun i => i != -1) := by
    rw [List.mem_filter]
    constructor
    · fin_cases hc <;> simp
    · simpa using hne
  intro hlen
  rw [List.length_eq_zero] at hlen
  rw [hlen] at hmem
  exact absurd hmem (List.not_mem_nil _)

/-! ## Event channel (part_001 `EventEmitter`)

`_events` is a plain object mapping event names to JS `Set`s of
callbacks; a `Set` is embedded as a duplicate-free list in insertion
order and callbacks are opaque identifiers. -/

structure EventEmitter where
  events : List (String × List Nat)
deriving DecidableEq

namespace EventEmitter

/-- part_001 `eventExists`: `!!this._events[eventName]`. -/
def eventExists (e : EventEmitter) (n : String) : Bool :=
  (alookup e.events n).isSome

/-- JS `Set.prototype.add`: appends unless already present (identity). -/
def setAdd (l : List Nat) (cb : Nat) : List Nat :=
  if cb ∈ l then l else l ++ [cb]

/-- part_001 `EventEmitter.on`: create the set on first use, then add the
callback. The returned unsubscribe closure is not part of the state. -/
def «on» (e : EventEmitter) (n : String) (cb : Nat) : EventEmitter :=
  let e' := if e.eventExists n then e else ⟨aset e.events n []⟩
  ⟨aset e'.events n (setAdd ((alookup e'.events n).getD []) cb)⟩

/-- part_001 `EventEmitter.off`: delete the callback from the set if the
event exists. -/
def off (e : EventEmitter) (n : String) (cb : Nat) : EventEmitter :=
  if e.eventExists n then ⟨aset e.events n (((alookup e.events n).getD []).erase cb)⟩ else e

/-- part_001 `EventEmitter.emit`: returns the unchanged state paired with
the sequence of callback invocations (`forEach` over the set, in
insertion order); an unknown event returns early with no invocations. -/
def emit (e : EventEmitter) (n : String) : EventEmitter × List Nat :=
  if e.eventExists n then (e, (alookup e.events n).getD []) else (e, [])

/-- part_001 `clearEvents`: `this._events = {}`. -/
def clearEvents (_e : EventEmitter) : EventEmitter := ⟨[]⟩

end EventEmitter

/-! ## Document tree (browser DOM, as used by src/utils.ts and src/App.ts)

Elements are `Nat` identifiers.  `parent` is `parentElement`/`parentNode`
and `depth` certifies that every parent chain is finite (a document is a
finite tree), which is what makes the JS recursions terminate; the
embedded recursions take fuel bounded through `depth`. -/

structure Dom where
  parent : Nat → Option Nat
  depth : Nat → Nat
  parent_depth : ∀ e p, parent e = some p → depth p < depth e

/-- Fuel-indexed embedding of src/utils.ts `hasParent(element, parent)`:
true when `parentE` is `element` itself or appears on the chain of
`parentElement` links above `element`. -/
def hasParentFuel (d : Dom) : Nat → Nat → Nat → Bool
  | 0, _, _ => false
  | fuel + 1, element, parentE =>
    if element = parentE then true
    else
      match d.parent element with
      | some pe => hasParentFuel d fuel pe parentE
      | none => false

/-- src/utils.ts `hasParent`; the fuel `depth element + 1` is enough for
the whole chain, so this equals the unbounded JS recursion. -/
def hasParent (d : Dom) (element parentE : Nat) : Bool :=
  hasParentFuel d (d.depth element + 1) element parentE

/-- Fuel-indexed embedding of DOM `a.contains(b)` (inclusive descendant
test, walking up from `b`), used by `App.destroyModules`. -/
def containsFuel (d : Dom) : Nat → Nat → Nat → Bool
  | 0, _, _ => false
  | fuel + 1, a, b =>
    if b = a then true
    else
      match d.parent b with
      | some p => containsFuel d fuel a p
      | none => false

/-- DOM `Node.prototype.contains`. -/
def containsB (d : Dom) (a b : Nat) : Bool :=
  containsFuel d (d.depth b + 1) a b

/-- The two event fields the delegation wrappers read or write; targets
are always elements here (the source's `instanceof Element` guard is the
identity on this model). -/
structure DomEvent where
  target : Nat
  currentTarget : Nat
deriving DecidableEq

/-- src/utils.ts `getEventFilteredEventListener(element, listener)`:
the wrapper invokes the listener exactly when `element ===
event.currentTarget || hasParent(element, event.target)`, after rewriting
`currentTarget` to the delegation element.  The result is the event the
listener is invoked with, or `none` when the listener is not invoked. -/
def getEventFilteredEventListener (d : Dom) (element : Nat) (event : DomEvent) : Option DomEvent :=
  if element = event.currentTarget || hasParent d element event.target then
    some { event with currentTarget := element }
  else none

/-! ## Component base (src/Module.ts, class `Module extends EventEmitter`)

A module instance state holds its naming token (per the documented
contract the subclass supplies the same token as static `name` and as the
`name` getter, e.g. `static name = "my-module"; get name() { return
MyModule.name; }`), its owning element, the owned listener table
`_eventListeners : Map<HTMLElement, Map<string, listener>>`, and the
inherited emitter state.  The world holds the instance heap (JS object
identity is the `Nat` id), the per-element identity bindings written by
the constructor (`el[this.name] = this`), and the set of listeners
currently attached to DOM targets (`EventTarget.addEventListener`
deduplicates an identical (target, type, listener) registration). -/

structure ModuleInst where
  name : String
  el : Nat
  eventListeners : List (Nat × List (String × Nat))
  events : List (String × List Nat)
deriving DecidableEq

structure World where
  nextId : Nat
  props : List ((Nat × String) × Nat)
  insts : List (Nat × ModuleInst)
  attached : List (Nat × String × Nat)
deriving DecidableEq

/-- DOM `addEventListener` effect on the set of attached listeners: a
registration identical to an existing one is discarded. -/
def domAdd (att : List (Nat × String × Nat)) (reg : Nat × String × Nat) :
    List (Nat × String × Nat) :=
  if reg ∈ att then att else att ++ [reg]

/-- DOM `removeEventListener` effect: drop the matching registration (a
miss is a no-op). -/
def domRemove (att : List (Nat × String × Nat)) (reg : Nat × String × Nat) :
    List (Nat × String × Nat) :=
  att.filter (fun r => r ≠ reg)

namespace MJS

/-- src/Module.ts constructor: record the owning element, start with an
empty listener table and emitter state, and write the identity binding
`el[this.name] = this`. -/
def constructM (w : World) (name : String) (el : Nat) : World × Nat :=
  let id := w.nextId
  let inst : ModuleInst := ⟨name, el, [], []⟩
  (⟨id + 1, aset w.props (el, name) id, aset w.insts id inst, w.attached⟩, id)

/-- src/Module.ts `Module.addEventListener` for an element array (a
single element is wrapped into a one-element array by the source; a
string argument is first resolved by `$all` to the matching elements):
each target is attached and then recorded in the per-element map keyed by
the event name, overwriting any previous record for that key. -/
def addEventListener (w : World) (iid : Nat) (elements : List Nat)
    (eventName : String) (listener : Nat) : World :=
  match alookup w.insts iid with
  | none => w
  | some inst =>
    let step := fun (st : List (Nat × List (String × Nat)) × List (Nat × String × Nat))
        (element : Nat) =>
      let tbl := if (alookup st.1 element).isSome then st.1 else aset st.1 element []
      let att := domAdd st.2 (element, eventName, listener)
      (aset tbl element (aset ((alookup tbl element).getD []) eventName listener), att)
    let res := elements.foldl step (inst.eventListeners, w.attached)
    { w with
      insts := aset w.insts iid { inst with eventListeners := res.1 }
      attached := res.2 }

/-- src/Module.ts `Module.destroy`: clear the emitter state
(`clearEvents`) and detach every listener recorded in the owned table.
The table itself is left as it is by the source. -/
def destroy (w : World) (iid : Nat) : World :=
  match alookup w.insts iid with
  | none => w
  | some inst =>
    let att := inst.eventListeners.foldl
      (fun att p => p.2.foldl (fun att q => domRemove att (p.1, q.1, q.2)) att)
      w.attached
    { w with
      insts := aset w.insts iid { inst with events := [] }
      attached := att }

/-- src/Module.ts `Module.create(options, recreate = false)`: reuse the
instance bound on the element when one exists (destroying it first when
`recreate` is set), otherwise run the constructor.  The `instanceof
Module` test is heap membership of the bound id. -/
def create (w : World) (name : String) (el : Nat) (recreate : Bool) : World × Nat :=
  match alookup w.props (el, name) with
  | some iid =>
    if (alookup w.insts iid).isSome then
      if recreate then constructM (destroy w iid) name el
      else (w, iid)
    else constructM w name el
  | none => constructM w name el

end MJS

/-! ## part_007 `Module.removeEventListener`

The part_007 module variant keeps the same owned table
`_eventListeners : Map<EventTarget, Map<string, listener>>`.  Its
`removeEventListener(targets, type)` resolves the targets (a string is
resolved by `$all`, a single target is wrapped into an array) and for
each target skips it unless the table has the target and the inner map
has the event type; otherwise it detaches the recorded listener and
deletes the inner entry. -/

namespace Mod7

structure Mod where
  eventListeners : List (Nat × List (String × Nat))
deriving DecidableEq

/-- part_007 `removeEventListener` over an already-resolved target array
(the for-of loop is embedded as structural recursion carrying the mutated
state), returning the updated module state and attached-listener set:
targets without a table entry, and targets whose inner map misses the
event type, are skipped with `continue`. -/
def removeEventListener (m : Mod) (att : List (Nat × String × Nat))
    (targets : List Nat) (ty : String) : Mod × List (Nat × String × Nat) :=
  match targets with
  | [] => (m, att)
  | t :: rest =>
    match alookup m.eventListeners t with
    | none => removeEventListener m att rest ty
    | some inner =>
      match alookup inner ty with
      | none => removeEventListener m att rest ty
      | some listener =>
        removeEventListener ⟨aset m.eventListeners t (adelete inner ty)⟩
          (domRemove att (t, ty, listener)) rest ty

end Mod7

/-! ## Registry (src/App.ts, class `App`)

The registry owns `moduleInstances : Map<HTMLElement, Record<string,
Module>>`.  A document is the tree plus the element list in document
order, the attribute predicate, and the `data-ignore-module` flag
(`element.dataset.ignoreModule`).  Module classes are their declared
static `name` tokens (the scan key is `pascalToSnake` of that token).
The `MutationObserver` wiring in `App.init`/`App.destroy` is outside
this model; `update` calls `destroyModules` then `initModules`
directly. -/

structure Doc where
  dom : Dom
  root : Nat
  elems : List Nat
  hasAttr : Nat → String → Bool
  ignoreModule : Nat → Bool

/-- DOM `context.querySelectorAll("[attr]")`: the proper descendants of
the context carrying the attribute, in document order. -/
def querySelectorAll (doc : Doc) (ctx : Nat) (attr : String) : List Nat :=
  doc.elems.filter
    (fun e => (e != ctx) && containsB doc.dom ctx e && doc.hasAttr e attr)

/-- The registry map: element to (scan-name keyed) record of instances. -/
abbrev AppState := List (Nat × List (String × Nat))

namespace AppTs

/-- src/App.ts `initModules(context)`: for each module class, scan the
context (defaulting to the document root) for its discovery attribute,
append the context itself when it carries the attribute, then for every
non-ignored match `create` (without recreate), run `init` (a no-op in
the base class) and merge the instance into the element's record. -/
def initModules (doc : Doc) (modules : List String) (w : World) (app : AppState)
    (ctx : Option Nat) : World × AppState :=
  let c := ctx.getD doc.root
  modules.foldl
    (fun (st : World × AppState) cls =>
      let name := pascalToSnake cls
      let moduleAttribute := "data-module-" ++ name
      let elements := querySelectorAll doc c moduleAttribute
        ++ (if doc.hasAttr c moduleAttribute then [c] else [])
      elements.foldl
        (fun (st : World × AppState) element =>
          if doc.ignoreModule element then st
          else
            let res := MJS.create st.1 cls element false
            (res.1, aset st.2 element
              (aset ((alookup st.2 element).getD []) name res.2)))
        st)
    (w, app)

/-- Skip test of src/App.ts `destroyModules`: an entry is kept when a
context is given and the entry's element is neither the context nor
contained in it. -/
def skipEntry (d : Dom) (ctx : Option Nat) (el : Nat) : Bool :=
  match ctx with
  | none => false
  | some c => (c != el) && !containsB d c el

/-- Reading `instance.name` of the instance object with id `iid`: the
`name` field of its heap state. -/
def heapName (w : World) (iid : Nat) : Option String :=
  (alookup w.insts iid).map (fun i => i.name)

/-- src/App.ts `unregisterModuleInstance(element, instance)` along the
branch `destroyModules` takes (an `instance` argument is always passed):
re-read the element's record from the map, delete the property keyed by
the instance's own `name` (a miss leaves the record as it is), then keep
the entry when keys remain and delete the element from the map
otherwise.  Only the instance's `name` string is consumed, so it is the
parameter. -/
def unregisterModuleInstance (app : AppState) (element : Nat) (instName : String) : AppState :=
  match alookup app element with
  | none => app
  | some instances =>
    let instances' := adelete instances instName
    if instances'.length != 0 then aset app element instances'
    else adelete app element

/-- Body of the `Object.values(instances).forEach` loop in src/App.ts
`destroyModules`: for each instance of the snapshot run
`instance.destroy()` and then `unregisterModuleInstance(element,
instance)`, which reads `instance.name` (the read happens after the
destroy; `destroy` does not change the name, and the `getD` default
covers only the in-JS-impossible case of an id without a heap object). -/
def destroyEntryInsts (w : World) (app : AppState) (element : Nat) :
    List Nat → World × AppState
  | [] => (w, app)
  | iid :: rest =>
    let w' := MJS.destroy w iid
    destroyEntryInsts w' (unregisterModuleInstance app element ((heapName w' iid).getD ""))
      element rest

/-- Worker of src/App.ts `destroyModules(context)`: the source iterates
`moduleInstances.entries()` while mutating the map, but processing an
entry only ever touches that entry's own key, so the visit order is the
original entry list while every lookup reads the live map.  Out-of-scope
entries are skipped; in-scope entries have the snapshot of their
instances destroyed and unregistered one by one.  The returned list logs
the ids whose `destroy()` was invoked, in call order. -/
def destroyModulesGo (d : Dom) (ctx : Option Nat) :
    World → AppState → List (Nat × List (String × Nat)) → World × AppState × List Nat
  | w, live, [] => (w, live, [])
  | w, live, (el, insts) :: rest =>
    if skipEntry d ctx el then destroyModulesGo d ctx w live rest
    else
      let res := destroyEntryInsts w live el (insts.map (fun p => p.2))
      let res2 := destroyModulesGo d ctx res.1 res.2 rest
      (res2.1, res2.2.1, insts.map (fun p => p.2) ++ res2.2.2)

/-- src/App.ts `destroyModules(context)`. -/
def destroyModules (d : Dom) (w : World) (app : AppState) (ctx : Option Nat) :
    World × AppState × List Nat :=
  destroyModulesGo d ctx w app app

/-- src/App.ts `update(context)`: `destroyModules` then `initModules`
over the same context. -/
def update (doc : Doc) (modules : List String) (w : World) (app : AppState)
    (ctx : Option Nat) : World × AppState :=
  let res := destroyModules doc.dom w app ctx
  initModules doc modules res.1 res.2.1 ctx

end AppTs

/-! ## Facts about the static factory (claims C2, C10) -/

theorem create_props (w : World) (name : String) (el : Nat) :
    alookup (MJS.create w name el false).1.props (el, name)
      = some (MJS.create w name el false).2 := by
  unfold MJS.create
  cases h : alookup w.props (el, name) with
  | none => simp [MJS.constructM, alookup_aset_self]
  | some iid =>
    cases hi : (alookup w.insts iid).isSome with
    | true => simp [h, hi]
    | false => simp [h, hi, MJS.constructM, alookup_aset_self]

theorem create_insts (w : World) (name : String) (el : Nat) :
    (alookup (MJS.create w name el false).1.insts (MJS.create w name el false).2).isSome
      = true := by
  unfold MJS.create
  cases h : alookup w.props (el, name) with
  | none => simp [MJS.constructM, alookup_aset_self]
  | some iid =>
    cases hi : (alookup w.insts iid).isSome with
    | true => simp [h, hi]
    | false => simp [h, hi, MJS.constructM, alookup_aset_self]

theorem destroy_props (w : World) (iid : Nat) :
    (MJS.destroy w iid).props = w.props := by
  unfold MJS.destroy
  cases h : alookup w.insts iid <;> rfl

theorem destroy_insts_isSome (w : World) (iid : Nat)
    (h : (alookup w.insts iid).isSome = true) :
    (alookup (MJS.destroy w iid).insts iid).isSome = true := by
  unfold MJS.destroy
  cases hl : alookup w.insts iid with
  | none => rw [hl] at h; simp at h
  | some inst => simp [alookup_aset_self]

theorem create_of_found (w : World) (name : String) (el : Nat) (iid : Nat)
    (hp : alookup w.props (el, name) = some iid)
    (hi : (alookup w.insts iid).isSome = true) :
    MJS.create w name el false = (w, iid) := by
  unfold MJS.create
  rw [hp]
  simp [hi]

/-- C2: for every world, element and component token, creating twice
without `recreate` returns the very same instance id and leaves the
world untouched on the second call (no constructor runs, no instance
state changes): the second `create` finds the identity binding written by
the first and returns it. -/
theorem create_twice_returns_same_instance (w : World) (name : String) (el : Nat) :
    MJS.create (MJS.create w name el false).1 name el false
      = MJS.create w name el false := by
  rw [create_of_found (MJS.create w name el false).1 name el
    (MJS.create w name el false).2 (create_props w name el) (create_insts w name el)]

/-- C10: `destroy()` leaves the identity binding `el[name]` in place, so
a later `create` without `recreate` finds the destroyed instance and
returns it unchanged — no constructor and no `init` runs (the world is
returned exactly as it was). -/
theorem create_after_destroy_returns_same (w : World) (name : String) (el : Nat) :
    alookup (MJS.destroy (MJS.create w name el false).1
        (MJS.create w name el false).2).props (el, name)
      = some (MJS.create w name el false).2
    ∧ MJS.create (MJS.destroy (MJS.create w name el false).1
        (MJS.create w name el false).2) name el false
      = (MJS.destroy (MJS.create w name el false).1 (MJS.create w name el false).2,
        (MJS.create w name el false).2) := by
  have hp := create_props w name el
  have hi := create_insts w name el
  have hp2 : alookup (MJS.destroy (MJS.create w name el false).1
      (MJS.create w name el false).2).props (el, name)
      = some (MJS.create w name el false).2 := by
    rw [destroy_props]
    exact hp
  have hi2 := destroy_insts_isSome (MJS.create w name el false).1
    (MJS.create w name el false).2 hi
  exact ⟨hp2, create_of_found _ name el _ hp2 hi2⟩

/-! ## Facts about the event channel (claim C8) -/

theorem mem_setAdd (l : List Nat) (cb : Nat) : cb ∈ EventEmitter.setAdd l cb := by
  unfold EventEmitter.setAdd
  by_cases h : cb ∈ l <;> simp [h]

theorem setAdd_eq_of_mem (l : List Nat) (cb : Nat) (h : cb ∈ l) :
    EventEmitter.setAdd l cb = l := by
  simp [EventEmitter.setAdd, h]

theorem on_events (e : EventEmitter) (n : String) (cb : Nat) :
    ∃ l, alookup (EventEmitter.on e n cb).events n = some l ∧ cb ∈ l := by
  unfold EventEmitter.on
  refine ⟨_, alookup_aset_self _ _ _, mem_setAdd _ _⟩

theorem aset_lookup_self {α β : Type} [DecidableEq α]
    (l : List (α × β)) (k : α) (v : β) (h : alookup l k = some v) : aset l k v = l := by
  induction l with
  | nil => simp [alookup] at h
  | cons p rest ih =>
    obtain ⟨k0, v0⟩ := p
    by_cases hk : k = k0
    · subst hk
      simp only [alookup, if_pos rfl, if_true, Option.some.injEq] at h
      subst h
      simp [aset]
    · simp only [alookup, if_neg hk] at h
      simp [aset, hk, ih h]

theorem on_of_mem (e : EventEmitter) (n : String) (cb : Nat) (l : List Nat)
    (hl : alookup e.events n = some l) (hmem : cb ∈ l) :
    EventEmitter.on e n cb = e := by
  have hex : e.eventExists n = true := by simp [EventEmitter.eventExists, hl]
  unfold EventEmitter.on
  rw [hex]
  simp only [if_true, hl, Option.getD_some, setAdd_eq_of_mem l cb hmem,
    aset_lookup_self e.events n l hl]

theorem on_on_eq (e : EventEmitter) (n : String) (cb : Nat) :
    EventEmitter.on (EventEmitter.on e n cb) n cb = EventEmitter.on e n cb := by
  obtain ⟨l, hl, hmem⟩ := on_events e n cb
  exact on_of_mem (EventEmitter.on e n cb) n cb l hl hmem

/-- C8: subscribing the same callback twice on the event channel
collapses to a single registration — the second `on` does not change the
state at all, and publishing then invokes the callback exactly once;
publishing an event name with no subscribers (unknown name, or a name
whose set is empty) changes no state and invokes nothing. -/
theorem eventEmitter_dedup_and_noop_publish :
    (∀ (e : EventEmitter) (n : String) (cb : Nat),
      EventEmitter.on (EventEmitter.on e n cb) n cb = EventEmitter.on e n cb)
    ∧ (∀ (e : EventEmitter) (n : String) (cb : Nat),
      (∀ p ∈ e.events, List.Nodup p.2) →
      (EventEmitter.emit (EventEmitter.on (EventEmitter.on e n cb) n cb) n).2.count cb = 1)
    ∧ (∀ (e : EventEmitter) (n : String),
      EventEmitter.eventExists e n = false → EventEmitter.emit e n = (e, []))
    ∧ (∀ (e : EventEmitter) (n : String),
      alookup e.events n = some [] → EventEmitter.emit e n = (e, [])) := by
  refine ⟨on_on_eq, ?_, ?_, ?_⟩
  · intro e n cb hnodup
    rw [on_on_eq]
    have hinner : ∃ l0, (EventEmitter.on e n cb).events
        = aset (if e.eventExists n then e else ⟨aset e.events n []⟩).events n
            (EventEmitter.setAdd l0 cb)
        ∧ l0 = (alookup (if e.eventExists n then e
            else (⟨aset e.events n []⟩ : EventEmitter)).events n).getD []
        ∧ l0.Nodup := by
      refine ⟨_, by conv_lhs => unfold EventEmitter.on, rfl, ?_⟩
      cases hex : e.eventExists n with
      | true =>
        simp only [hex, if_true]
        cases hl : alookup e.events n with
        | none => simp
        | some l =>
          simp only [Option.getD_some]
          exact hnodup (n, l) (alookup_mem e.events n l hl)
      | false =>
        simp only [hex, Bool.false_eq_true, if_false, alookup_aset_self]
        simp
    obtain ⟨l0, hev, _, hl0⟩ := hinner
    have hlook : alookup (EventEmitter.on e n cb).events n
        = some (EventEmitter.setAdd l0 cb) := by
      rw [hev]
      exact alookup_aset_self _ _ _
    have hex2 : (EventEmitter.on e n cb).eventExists n = true := by
      simp [EventEmitter.eventExists, hlook]
    unfold EventEmitter.emit
    rw [hex2]
    simp only [if_true, hlook, Option.getD_some]
    unfold EventEmitter.setAdd
    by_cases hmem : cb ∈ l0
    · simp only [hmem, if_true]
      exact List.count_eq_one_of_mem hl0 hmem
    · simp only [hmem, if_false]
      rw [List.count_append]
      rw [List.count_eq_zero_of_not_mem hmem]
      simp
  · intro e n h
    simp [EventEmitter.emit, h]
  · intro e n h
    have hex : EventEmitter.eventExists e n = true := by
      simp [EventEmitter.eventExists, h]
    simp [EventEmitter.emit, hex, h]

/-- C8 witness: concrete run of the three guarded parts. -/
theorem eventEmitter_dedup_and_noop_publish_witness :
    ((EventEmitter.emit (EventEmitter.on (EventEmitter.on ⟨[]⟩ "open" 7) "open" 7) "open").2.count 7
      = 1)
    ∧ EventEmitter.emit (⟨[]⟩ : EventEmitter) "closed" = (⟨[]⟩, [])
    ∧ EventEmitter.emit (⟨[("open", [])]⟩ : EventEmitter) "open" = (⟨[("open", [])]⟩, []) :=
  ⟨eventEmitter_dedup_and_noop_publish.2.1 ⟨[]⟩ "open" 7 (by simp),
   eventEmitter_dedup_and_noop_publish.2.2.1 ⟨[]⟩ "closed" (by decide),
   eventEmitter_dedup_and_noop_publish.2.2.2 ⟨[("open", [])]⟩ "open" (by decide)⟩

/-- C9: part_007 `removeEventListener` is a silent no-op for every target
whose (target, type) pair was never registered through the instance or
was already removed — the owned table and the attached listeners of
every target are left exactly as they were (and the function is total,
so nothing is thrown). -/
theorem removeEventListener_miss_noop (m : Mod7.Mod) (att : List (Nat × String × Nat))
    (targets : List Nat) (ty : String)
    (h : ∀ t ∈ targets,
      (alookup m.eventListeners t).bind (fun inner => alookup inner ty) = none) :
    Mod7.removeEventListener m att targets ty = (m, att) := by
  induction targets with
  | nil => rfl
  | cons t rest ih =>
    have ht := h t (List.mem_cons_self t rest)
    have htail := ih (fun t' ht' => h t' (List.mem_cons_of_mem t ht'))
    cases houter : alookup m.eventListeners t with
    | none => simpa [Mod7.removeEventListener, houter] using htail
    | some inner =>
      rw [houter] at ht
      simp only [Option.some_bind] at ht
      simpa [Mod7.removeEventListener, houter, ht] using htail

/-- C9 witness: a target not in the table and a target whose inner map
misses the event type are both skipped. -/
theorem removeEventListener_miss_noop_witness :
    Mod7.removeEventListener ⟨[(1, [("click", 5)])]⟩ [(1, "click", 5)] [2, 1] "mouseover"
      = (⟨[(1, [("click", 5)])]⟩, [(1, "click", 5)]) :=
  removeEventListener_miss_noop ⟨[(1, [("click", 5)])]⟩ [(1, "click", 5)] [2, 1] "mouseover"
    (by decide)

/-- C6: for every naming token and raw selector, a selector containing a
`.`, `#` or `[` anywhere passes through both selector resolvers
unchanged, and a bare word becomes the namespace-scoped attribute
selector of the respective convention variant (`[data-<name>="<word>"]`
in src/Module.ts and part_007, `[data-<name>-<word>]` in part_008).
Every scoped operation (`$`, `$all`, `$parent`, string-target listener
registration) funnels the selector through this one resolver. -/
theorem getSelectorQuery_spec (name selector : String) :
    (hasMarker selector = true →
      MJS.getSelectorQuery name selector = selector
      ∧ Mod8.getSelectorQuery name selector = selector)
    ∧ (hasMarker selector = false →
      MJS.getSelectorQuery name selector = "[data-" ++ name ++ "=\"" ++ selector ++ "\"]"
      ∧ Mod8.getSelectorQuery name selector = "[data-" ++ name ++ "-" ++ selector ++ "]") := by
  constructor
  · intro h
    have hlen := marker_filter_ne_nil selector h
    have hb : (([indexOfChar selector '.', indexOfChar selector '#',
        indexOfChar selector '['].filter (fun i => i != -1)).length != 0) = true := by
      simpa using hlen
    constructor
    · simp [MJS.getSelectorQuery, hb]
    · simp [Mod8.getSelectorQuery, hb]
  · intro h
    have hfil := marker_filter_nil selector h
    constructor
    · simp [MJS.getSelectorQuery, hfil]
    · simp [Mod8.getSelectorQuery, hfil]

/-- C6 witness: the two examples of the claim, on the token `token`. -/
theorem getSelectorQuery_spec_witness :
    (hasMarker "button" = false
      ∧ MJS.getSelectorQuery "token" "button" = "[data-" ++ "token" ++ "=\"" ++ "button" ++ "\"]"
      ∧ Mod8.getSelectorQuery "token" "button" = "[data-" ++ "token" ++ "-" ++ "button" ++ "]")
    ∧ (hasMarker ".btn" = true ∧ MJS.getSelectorQuery "token" ".btn" = ".btn") :=
  ⟨⟨by decide,
    ((getSelectorQuery_spec "token" "button").2 (by decide)).1,
    ((getSelectorQuery_spec "token" "button").2 (by decide)).2⟩,
   ⟨by decide, ((getSelectorQuery_spec "token" ".btn").1 (by decide)).1⟩⟩

/-- C7 counterexample: the claim requires the same token wherever a
component's name is resolved, but instance construction (part_007, via
`pascalToKebab`) and the registry scan (src/App.ts, via `pascalToSnake`)
disagree on any name with a non-leading uppercase letter. -/
theorem naming_resolvers_disagree :
    pascalToKebab "MyModule" = "my-module"
    ∧ pascalToSnake "MyModule" = "my_module"
    ∧ pascalToSnake "MyModule" ≠ pascalToKebab "MyModule" := by
  refine ⟨by decide, by decide, by decide⟩

/-- C7 amended: `pascalToKebab` implements exactly the stated rule —
every uppercase letter except a leading one starts a new segment,
segments are lowercased and joined with a dash — and is non-empty on
non-empty input; but the registry scan in src/App.ts resolves names with
`pascalToSnake`, which applies the same segmentation joined with an
underscore, so construction and scanning agree only on names without a
non-leading uppercase letter. -/
theorem namingResolver_rule :
    (∀ s : String, pascalToKebab s = specSegmented '-' s)
    ∧ (∀ s : String, pascalToSnake s = specSegmented '_' s)
    ∧ (∀ s : String, s.data ≠ [] → (pascalToKebab s).data ≠ []) := by
  refine ⟨fun s => replaceUpper_eq_specSegmented '-' s,
    fun s => replaceUpper_eq_specSegmented '_' s, ?_⟩
  intro s hs
  unfold pascalToKebab
  cases hd : s.data with
  | nil => exact absurd hd hs
  | cons c cs =>
    cases h : isUpperAZ c with
    | true => simp [replaceUpperAux, h]
    | false => simp [replaceUpperAux, h]

/-- C7 witness: the rule and non-emptiness evaluated at `MyModule`. -/
theorem namingResolver_rule_witness :
    "MyModule".data ≠ [] ∧ (pascalToKebab "MyModule").data ≠ [] :=
  ⟨by decide, namingResolver_rule.2.2 "MyModule" (by decide)⟩

/-- A small document tree: 0 is the root, 1 and 3 are children of 0, and
2 is a child of 1. -/
def sampleDom : Dom where
  parent := fun e =>
    if e = 1 then some 0 else if e = 2 then some 1 else if e = 3 then some 0 else none
  depth := fun e => e
  parent_depth := by
    intro e p h
    simp only [] at h
    split_ifs at h <;> simp_all <;> omega

/-- C5 (evidence of the defect): in `sampleDom`, element 1 is a
descendant of the delegation root 0, yet the wrapper built for root 0
does not invoke the listener on an event targeting 1 (when it is not
dispatched with `currentTarget` 0); conversely the wrapper built for
root 1 does invoke the listener on an event targeting 0, which is an
ancestor — not the root or a descendant.  The source passes the
delegation root as the first argument of `hasParent`, so the test reads
"the target is an ancestor of the root" instead of "the target is within
the root". -/
theorem eventFilteredEventListener_inverted :
    containsB sampleDom 0 1 = true
    ∧ getEventFilteredEventListener sampleDom 0 ⟨1, 2⟩ = none
    ∧ containsB sampleDom 1 0 = false
    ∧ getEventFilteredEventListener sampleDom 1 ⟨0, 2⟩ = some ⟨0, 1⟩ := by
  refine ⟨by decide, by decide, by decide, by decide⟩

/-! ## Facts about context-scoped teardown (claim C4) -/

theorem containsB_self (d : Dom) (c : Nat) : containsB d c c = true := by
  simp [containsB, containsFuel]

theorem skipEntry_eq (d : Dom) (c el : Nat) :
    AppTs.skipEntry d (some c) el = !containsB d c el := by
  unfold AppTs.skipEntry
  by_cases h : c = el
  · subst h
    simp [containsB_self]
  · simp [h]

theorem destroy_insts_ne (w : World) (iid j : Nat) (h : j ≠ iid) :
    alookup (MJS.destroy w iid).insts j = alookup w.insts j := by
  unfold MJS.destroy
  cases hl : alookup w.insts iid with
  | none => rfl
  | some inst => simp [alookup_aset_ne _ _ _ _ h]

theorem destroy_preserves_name (w : World) (j i : Nat) :
    AppTs.heapName (MJS.destroy w j) i = AppTs.heapName w i := by
  unfold AppTs.heapName MJS.destroy
  cases hl : alookup w.insts j with
  | none => rfl
  | some inst =>
    by_cases hij : i = j
    · subst hij
      simp [alookup_aset_self, hl]
    · simp [alookup_aset_ne _ _ _ _ hij]

theorem unregister_lookup_ne (app : AppState) (el : Nat) (n : String) (el' : Nat)
    (h : el' ≠ el) :
    alookup (AppTs.unregisterModuleInstance app el n) el' = alookup app el' := by
  unfold AppTs.unregisterModuleInstance
  cases hl : alookup app el with
  | none => rfl
  | some r =>
    by_cases hc : ((adelete r n).length != 0) = true
    · simp [hc, alookup_aset_ne _ _ _ _ h]
    · simp [hc, alookup_adelete_ne _ _ _ h]

theorem unregister_preserves_none (app : AppState) (el : Nat) (n : String) (el' : Nat)
    (h : alookup app el' = none) :
    alookup (AppTs.unregisterModuleInstance app el n) el' = none := by
  by_cases he : el' = el
  · subst he
    unfold AppTs.unregisterModuleInstance
    rw [h]
    exact h
  · rw [unregister_lookup_ne app el n el' he]
    exact h

theorem unregister_keys_nodup (app : AppState) (el : Nat) (n : String)
    (h : (app.map (fun p => p.1)).Nodup) :
    ((AppTs.unregisterModuleInstance app el n).map (fun p => p.1)).Nodup := by
  unfold AppTs.unregisterModuleInstance
  cases hl : alookup app el with
  | none => exact h
  | some r =>
    by_cases hc : ((adelete r n).length != 0) = true
    · simp only [hc, if_true]
      exact aset_keys_nodup app el _ h
    · simp only [hc, if_false]
      exact adelete_keys_nodup app el h

theorem destroyEntryInsts_insts_ne (el : Nat) (j : Nat) :
    ∀ (vals : List Nat) (w : World) (app : AppState), j ∉ vals →
    alookup (AppTs.destroyEntryInsts w app el vals).1.insts j = alookup w.insts j := by
  intro vals
  induction vals with
  | nil => intro w app _; rfl
  | cons iid rest ih =>
    intro w app h
    simp only [List.mem_cons, not_or] at h
    simp only [AppTs.destroyEntryInsts]
    rw [ih (MJS.destroy w iid) _ h.2, destroy_insts_ne w iid j h.1]

theorem destroyEntryInsts_preserves_name (el : Nat) (i : Nat) :
    ∀ (vals : List Nat) (w : World) (app : AppState),
    AppTs.heapName (AppTs.destroyEntryInsts w app el vals).1 i = AppTs.heapName w i := by
  intro vals
  induction vals with
  | nil => intro w app; rfl
  | cons iid rest ih =>
    intro w app
    simp only [AppTs.destroyEntryInsts]
    rw [ih (MJS.destroy w iid), destroy_preserves_name]

theorem destroyEntryInsts_app_ne (el el' : Nat) (h : el' ≠ el) :
    ∀ (vals : List Nat) (w : World) (app : AppState),
    alookup (AppTs.destroyEntryInsts w app el vals).2 el' = alookup app el' := by
  intro vals
  induction vals with
  | nil => intro w app; rfl
  | cons iid rest ih =>
    intro w app
    simp only [AppTs.destroyEntryInsts]
    rw [ih (MJS.destroy w iid), unregister_lookup_ne _ _ _ _ h]

theorem destroyEntryInsts_preserves_none (el el' : Nat) :
    ∀ (vals : List Nat) (w : World) (app : AppState), alookup app el' = none →
    alookup (AppTs.destroyEntryInsts w app el vals).2 el' = none := by
  intro vals
  induction vals with
  | nil => intro w app h; exact h
  | cons iid rest ih =>
    intro w app h
    simp only [AppTs.destroyEntryInsts]
    exact ih (MJS.destroy w iid) _ (unregister_preserves_none app el _ el' h)

theorem destroyEntryInsts_keys_nodup (el : Nat) :
    ∀ (vals : List Nat) (w : World) (app : AppState), (app.map (fun p => p.1)).Nodup →
    (((AppTs.destroyEntryInsts w app el vals).2).map (fun p => p.1)).Nodup := by
  intro vals
  induction vals with
  | nil => intro w app h; exact h
  | cons iid rest ih =>
    intro w app h
    simp only [AppTs.destroyEntryInsts]
    exact ih (MJS.destroy w iid) _ (unregister_keys_nodup app el _ h)

theorem destroyEntryInsts_empties (el : Nat) :
    ∀ (insts : List (String × Nat)) (w : World) (app : AppState),
    (app.map (fun p => p.1)).Nodup →
    alookup app el = some insts →
    insts ≠ [] →
    (∀ q ∈ insts, AppTs.heapName w q.2 = some q.1) →
    alookup (AppTs.destroyEntryInsts w app el (insts.map (fun p => p.2))).2 el = none := by
  intro insts
  induction insts with
  | nil => intro w app _ _ hne _; exact absurd rfl hne
  | cons q tail ih =>
    obtain ⟨k, iid⟩ := q
    intro w app hnodup hlook _ hnames
    have hname : AppTs.heapName (MJS.destroy w iid) iid = some k := by
      rw [destroy_preserves_name]
      exact hnames (k, iid) (List.mem_cons_self _ _)
    have hunreg : AppTs.unregisterModuleInstance app el
        ((AppTs.heapName (MJS.destroy w iid) iid).getD "")
        = if (tail.length != 0) = true then aset app el tail else adelete app el := by
      rw [hname]
      unfold AppTs.unregisterModuleInstance
      rw [hlook]
      simp [adelete]
    simp only [List.map_cons, AppTs.destroyEntryInsts]
    rw [hunreg]
    cases tail with
    | nil =>
      simp only [List.length_nil, bne_self_eq_false, Bool.false_eq_true, if_false,
        List.map_nil, AppTs.destroyEntryInsts]
      exact alookup_adelete_self_of_nodup app el hnodup
    | cons t2 ttail =>
      have hcond : (((t2 :: ttail) : List (String × Nat)).length != 0) = true := by simp
      rw [hcond]
      simp only [if_true]
      exact ih (MJS.destroy w iid) (aset app el (t2 :: ttail))
        (aset_keys_nodup app el _ hnodup)
        (alookup_aset_self app el _)
        (by simp)
        (fun q hq => by
          rw [destroy_preserves_name]
          exact hnames q (List.mem_cons_of_mem _ hq))

theorem destroyModulesGo_log (d : Dom) (ctx : Option Nat) :
    ∀ (entries : List (Nat × List (String × Nat))) (w : World) (live : AppState),
    (AppTs.destroyModulesGo d ctx w live entries).2.2
      = ((entries.filter (fun p => !AppTs.skipEntry d ctx p.1)).map
          (fun p => p.2.map (fun q => q.2))).flatten := by
  intro entries
  induction entries with
  | nil => intro w live; rfl
  | cons p rest ih =>
    intro w live
    obtain ⟨el, insts⟩ := p
    cases hs : AppTs.skipEntry d ctx el with
    | true => simp [AppTs.destroyModulesGo, hs, ih]
    | false => simp [AppTs.destroyModulesGo, hs, ih]

theorem destroyModulesGo_insts (d : Dom) (ctx : Option Nat) (j : Nat) :
    ∀ (entries : List (Nat × List (String × Nat))) (w : World) (live : AppState),
    j ∉ (AppTs.destroyModulesGo d ctx w live entries).2.2 →
    alookup (AppTs.destroyModulesGo d ctx w live entries).1.insts j = alookup w.insts j := by
  intro entries
  induction entries with
  | nil => intro w live _; rfl
  | cons p rest ih =>
    intro w live h
    obtain ⟨el, insts⟩ := p
    cases hs : AppTs.skipEntry d ctx el with
    | true =>
      simp only [AppTs.destroyModulesGo, hs, if_true] at h ⊢
      exact ih w live h
    | false =>
      simp only [AppTs.destroyModulesGo, hs, Bool.false_eq_true, if_false,
        List.mem_append, not_or] at h ⊢
      rw [ih _ _ h.2, destroyEntryInsts_insts_ne el j _ w live h.1]

theorem destroyModulesGo_preserves_none (d : Dom) (ctx : Option Nat) (el : Nat) :
    ∀ (entries : List (Nat × List (String × Nat))) (w : World) (live : AppState),
    alookup live el = none →
    alookup (AppTs.destroyModulesGo d ctx w live entries).2.1 el = none := by
  intro entries
  induction entries with
  | nil => intro w live h; exact h
  | cons p rest ih =>
    intro w live h
    obtain ⟨el2, insts2⟩ := p
    cases hs : AppTs.skipEntry d ctx el2 with
    | true =>
      simp only [AppTs.destroyModulesGo, hs, if_true]
      exact ih w live h
    | false =>
      simp only [AppTs.destroyModulesGo, hs, Bool.false_eq_true, if_false]
      exact ih _ _ (destroyEntryInsts_preserves_none el2 el _ w live h)

theorem destroyModulesGo_lookup (d : Dom) (ctx : Option Nat) (el : Nat) :
    ∀ (entries : List (Nat × List (String × Nat))) (w : World) (live : AppState),
    (∀ p ∈ entries, AppTs.skipEntry d ctx p.1 = false → p.1 ≠ el) →
    alookup (AppTs.destroyModulesGo d ctx w live entries).2.1 el = alookup live el := by
  intro entries
  induction entries with
  | nil => intro w live _; rfl
  | cons p rest ih =>
    intro w live h
    obtain ⟨el2, insts2⟩ := p
    cases hs : AppTs.skipEntry d ctx el2 with
    | true =>
      simp only [AppTs.destroyModulesGo, hs, if_true]
      exact ih w live (fun p hp => h p (List.mem_cons_of_mem _ hp))
    | false =>
      have hne : el ≠ el2 := (h (el2, insts2) (List.mem_cons_self _ _) hs).symm
      simp only [AppTs.destroyModulesGo, hs, Bool.false_eq_true, if_false]
      rw [ih _ _ (fun p hp => h p (List.mem_cons_of_mem _ hp))]
      exact destroyEntryInsts_app_ne el2 el hne _ w live

theorem destroyModulesGo_removes (d : Dom) (ctx : Option Nat) (el : Nat)
    (insts : List (String × Nat)) (hskip : AppTs.skipEntry d ctx el = false) :
    ∀ (entries : List (Nat × List (String × Nat))) (w : World) (live : AppState),
    (live.map (fun p => p.1)).Nodup →
    (el, insts) ∈ entries →
    (∀ p ∈ entries, p.1 = el → p.2 = insts) →
    alookup live el = some insts →
    insts ≠ [] →
    (∀ q ∈ insts, AppTs.heapName w q.2 = some q.1) →
    alookup (AppTs.destroyModulesGo d ctx w live entries).2.1 el = none := by
  intro entries
  induction entries with
  | nil => intro w live _ hmem; simp at hmem
  | cons p rest ih =>
    intro w live hnodup hmem huniq hlook hne hnames
    obtain ⟨el2, insts2⟩ := p
    by_cases hel : el2 = el
    · subst hel
      have hi : insts2 = insts := huniq (el2, insts2) (List.mem_cons_self _ _) rfl
      subst hi
      simp only [AppTs.destroyModulesGo, hskip, Bool.false_eq_true, if_false]
      exact destroyModulesGo_preserves_none d ctx el2 rest _ _
        (destroyEntryInsts_empties el2 insts2 w live hnodup hlook hne hnames)
    · have hmem' : (el, insts) ∈ rest := by
        rcases List.mem_cons.1 hmem with h | h
        · exact absurd (congrArg Prod.fst h).symm hel
        · exact h
      cases hs : AppTs.skipEntry d ctx el2 with
      | true =>
        simp only [AppTs.destroyModulesGo, hs, if_true]
        exact ih w live hnodup hmem' (fun p hp => huniq p (List.mem_cons_of_mem _ hp))
          hlook hne hnames
      | false =>
        simp only [AppTs.destroyModulesGo, hs, Bool.false_eq_true, if_false]
        refine ih _ _ (destroyEntryInsts_keys_nodup el2 _ w live hnodup) hmem'
          (fun p hp => huniq p (List.mem_cons_of_mem _ hp)) ?_ hne ?_
        · rw [destroyEntryInsts_app_ne el2 el (fun he => hel he.symm) _ w live]
          exact hlook
        · intro q hq
          rw [destroyEntryInsts_preserves_name]
          exact hnames q hq

/-- The three-descendant scenario of the claim: elements A = 1, B = 2
(child of A) and C = 3 (sibling of A) under root 0 in `sampleDom`, with
instances 10, 11, 12 tracked for them and a listener of C's instance
attached to element 3. -/
def wABC : World :=
  ⟨13, [((1, "a"), 10), ((2, "b"), 11), ((3, "c"), 12)],
   [(10, ⟨"a", 1, [], []⟩), (11, ⟨"b", 2, [], []⟩),
    (12, ⟨"c", 3, [(3, [("click", 99)])], []⟩)],
   [(3, "click", 99)]⟩

def abcApp : AppState := [(1, [("a", 10)]), (2, [("b", 11)]), (3, [("c", 12)])]

/-- Document for the C4 counterexample: root 0 with child element 1
carrying the discovery attribute of the class with static name
`MyModule` (scan key `pascalToSnake "MyModule" = "my_module"`). -/
def c4Doc : Doc :=
  ⟨sampleDom, 0, [0, 1, 2, 3],
   fun e a => e == 1 && a == "data-module-my_module",
   fun _ => false⟩

/-- C4 counterexample: for the class with static name `MyModule`,
`initModules` records the instance under the `pascalToSnake` key
`my_module` while the instance's own `name` is `MyModule`; a
context-scoped destroy of element 1 calls `destroy()` on the instance
(the log is `[0]`) but `unregisterModuleInstance`'s
`delete instances[instance.name]` misses the record key, the record
stays non-empty, and the entry remains tracked — the in-scope
instance is not removed from the map, contradicting the claim. -/
theorem destroyModules_entry_survives :
    (AppTs.initModules c4Doc ["MyModule"] ⟨0, [], [], []⟩ [] none).2
      = [(1, [("my_module", 0)])]
    ∧ (AppTs.destroyModules sampleDom
        (AppTs.initModules c4Doc ["MyModule"] ⟨0, [], [], []⟩ [] none).1
        (AppTs.initModules c4Doc ["MyModule"] ⟨0, [], [], []⟩ [] none).2 (some 1)).2.2 = [0]
    ∧ (AppTs.destroyModules sampleDom
        (AppTs.initModules c4Doc ["MyModule"] ⟨0, [], [], []⟩ [] none).1
        (AppTs.initModules c4Doc ["MyModule"] ⟨0, [], [], []⟩ [] none).2 (some 1)).2.1
      = [(1, [("my_module", 0)])] := by
  refine ⟨by decide, by decide, by decide⟩

/-- C4 amended: `destroyModules(context)` calls `destroy()` on exactly
the instances whose owning element is the context or a descendant (the
log, in order), leaves every out-of-scope entry tracked with its record
unchanged, and leaves the heap state of every instance outside the log
untouched; an in-scope entry is removed from the map through
`unregisterModuleInstance`'s per-name delete, which empties the record
exactly when every tracked instance's own `name` equals its record key
— as under the documented naming contract (kebab-case static names,
where the `pascalToSnake` scan key is the name itself) — and can
otherwise miss and leave the destroyed instance's entry tracked.  In
the A/B/C scenario (matching names), destroying context A removes the
instances for A and B (ids 10 and 11), leaves C tracked, and leaves C's
instance and its attached listener untouched. -/
theorem destroyModules_scoped (d : Dom) (w : World) (app : AppState) (c : Nat) :
    ((AppTs.destroyModules d w app (some c)).2.2
      = ((app.filter (fun p => containsB d c p.1)).map
          (fun p => p.2.map (fun q => q.2))).flatten)
    ∧ (∀ el, containsB d c el = false →
        alookup (AppTs.destroyModules d w app (some c)).2.1 el = alookup app el)
    ∧ (∀ j, j ∉ (AppTs.destroyModules d w app (some c)).2.2 →
        alookup (AppTs.destroyModules d w app (some c)).1.insts j = alookup w.insts j)
    ∧ ((app.map (fun p => p.1)).Nodup →
        (∀ p ∈ app, containsB d c p.1 = true →
          p.2 ≠ [] ∧ ∀ q ∈ p.2, AppTs.heapName w q.2 = some q.1) →
        ∀ el, containsB d c el = true →
          alookup (AppTs.destroyModules d w app (some c)).2.1 el = none)
    ∧ (AppTs.destroyModules sampleDom wABC abcApp (some 1)).2.1 = [(3, [("c", 12)])]
    ∧ (AppTs.destroyModules sampleDom wABC abcApp (some 1)).2.2 = [10, 11]
    ∧ (AppTs.destroyModules sampleDom wABC abcApp (some 1)).1.attached = [(3, "click", 99)]
    ∧ alookup (AppTs.destroyModules sampleDom wABC abcApp (some 1)).1.insts 12
      = some ⟨"c", 3, [(3, [("click", 99)])], []⟩ := by
  refine ⟨?_, ?_, fun j => destroyModulesGo_insts d (some c) j app w app, ?_,
    by decide, by decide, by decide, by decide⟩
  · rw [AppTs.destroyModules, destroyModulesGo_log]
    have hpred : (fun p : Nat × List (String × Nat) => !AppTs.skipEntry d (some c) p.1)
        = fun p : Nat × List (String × Nat) => containsB d c p.1 := by
      funext p
      rw [skipEntry_eq, Bool.not_not]
    rw [hpred]
  · intro el hel
    rw [AppTs.destroyModules, destroyModulesGo_lookup d (some c) el app w app]
    intro p hp hpskip
    intro he
    rw [skipEntry_eq, he, hel] at hpskip
    exact Bool.true_eq_false.mp hpskip
  · intro hnodup hnames el hel
    have hskip : AppTs.skipEntry d (some c) el = false := by
      rw [skipEntry_eq, hel]
      rfl
    cases hl : alookup app el with
    | none =>
      rw [AppTs.destroyModules]
      exact destroyModulesGo_preserves_none d (some c) el app w app hl
    | some insts =>
      have hmem := alookup_mem app el insts hl
      have hin := hnames (el, insts) hmem hel
      have huniq : ∀ p ∈ app, p.1 = el → p.2 = insts := by
        intro p hp hpe
        have hres := alookup_of_mem_nodup app p hnodup hp
        rw [hpe, hl] at hres
        exact Option.some.inj hres.symm
      rw [AppTs.destroyModules]
      exact destroyModulesGo_removes d (some c) el insts hskip app w app
        hnodup hmem huniq hl hin.1 hin.2

/-- C4 witness: in the A/B/C scenario, the out-of-scope element 3 keeps
its map record, instance 12 (component C) is not in the destroy log and
keeps its heap state, and the in-scope element 1 (whose record keys
match the instance names) is removed from the map. -/
theorem destroyModules_scoped_witness :
    (containsB sampleDom 1 3 = false
      ∧ alookup (AppTs.destroyModules sampleDom wABC abcApp (some 1)).2.1 3
          = alookup abcApp 3)
    ∧ (12 ∉ (AppTs.destroyModules sampleDom wABC abcApp (some 1)).2.2
      ∧ alookup (AppTs.destroyModules sampleDom wABC abcApp (some 1)).1.insts 12
          = alookup wABC.insts 12)
    ∧ alookup (AppTs.destroyModules sampleDom wABC abcApp (some 1)).2.1 1 = none :=
  ⟨⟨by decide, (destroyModules_scoped sampleDom wABC abcApp 1).2.1 3 (by decide)⟩,
   ⟨by decide, (destroyModules_scoped sampleDom wABC abcApp 1).2.2.1 12 (by decide)⟩,
   (destroyModules_scoped sampleDom wABC abcApp 1).2.2.2.1 (by decide) (by decide) 1
     (by decide)⟩

/-- Document for the update scenario: root 0 with child element 1
carrying the discovery attribute of the module class with static name
`m`; nothing is ignored. -/
def c3Doc : Doc :=
  ⟨sampleDom, 0, [0, 1, 2, 3],
   fun e a => e == 1 && a == "data-module-m",
   fun _ => false⟩

/-- C3 counterexample: starting from an empty world, `initModules`
tracks instance 0 for element 1; running `update` destroys it and
re-initializes, but `create` is called without `recreate` and the
identity binding survives `destroy`, so the post-update instance for
element 1 is the same id 0 — reference-equal to the pre-update
instance, contradicting the claim. -/
theorem update_reuses_instances :
    (alookup ((alookup (AppTs.initModules c3Doc ["m"] ⟨0, [], [], []⟩ [] none).2 1).getD [])
      "m" = some 0)
    ∧ (alookup ((alookup (AppTs.update c3Doc ["m"]
        (AppTs.initModules c3Doc ["m"] ⟨0, [], [], []⟩ [] none).1
        (AppTs.initModules c3Doc ["m"] ⟨0, [], [], []⟩ [] none).2 none).2 1).getD [])
      "m" = some 0) := by
  refine ⟨by decide, by decide⟩

/-- C3 amended: `update(context)` is exactly `destroyModules(context)`
followed by `initModules(context)`, and the same element set ends up
tracked; but because `initModules` creates without `recreate` and the
identity binding survives `destroy`, the instances tracked after the
update are reference-equal to (reused from) the pre-update instances,
not fresh ones: in the scenario above the tracked element set is again
exactly element 1 and its instance is again id 0. -/
theorem update_is_destroy_then_init :
    (∀ (doc : Doc) (modules : List String) (w : World) (app : AppState) (ctx : Option Nat),
      AppTs.update doc modules w app ctx
        = AppTs.initModules doc modules
            (AppTs.destroyModules doc.dom w app ctx).1
            (AppTs.destroyModules doc.dom w app ctx).2.1 ctx)
    ∧ ((AppTs.update c3Doc ["m"]
          (AppTs.initModules c3Doc ["m"] ⟨0, [], [], []⟩ [] none).1
          (AppTs.initModules c3Doc ["m"] ⟨0, [], [], []⟩ [] none).2 none).2.map
            (fun p => p.1)
        = (AppTs.initModules c3Doc ["m"] ⟨0, [], [], []⟩ [] none).2.map (fun p => p.1)) := by
  refine ⟨fun doc modules w app ctx => rfl, by decide⟩

/-- The world after constructing a module instance named `m` on element
1 and registering two distinct listeners (ids 10 and 11) for the same
(element 1, `click`) pair through the instance helper. -/
def c1World : World :=
  MJS.addEventListener
    (MJS.addEventListener (MJS.create ⟨0, [], [], []⟩ "m" 1 false).1 0 [1] "click" 10)
    0 [1] "click" 11

/-- C1 (evidence of the defect): after registering listener 10 and then
listener 11 for the same element and event type, both are attached to
the element but the owned table keyed by event name records only the
later one; `destroy()` then detaches only listener 11 — listener 10
survives on the element, and the table entry itself also survives, so
an owned listener does outlive `destroy()` contrary to the claim and to
the destructor's documentation. -/
theorem destroy_leaks_overwritten_listener :
    ((1, "click", 10) ∈ c1World.attached ∧ (1, "click", 11) ∈ c1World.attached)
    ∧ (MJS.destroy c1World 0).attached = [(1, "click", 10)]
    ∧ alookup ((alookup c1World.insts 0).getD ⟨"", 0, [], []⟩).eventListeners 1
      = some [("click", 11)]
    ∧ alookup ((alookup (MJS.destroy c1World 0).insts 0).getD ⟨"", 0, [], []⟩).eventListeners 1
      = some [("click", 11)] := by
  refine ⟨⟨by decide, by decide⟩, by decide, by decide, by decide⟩
